import Mathlib

/-!
Shallow embedding of `src/function.h`: a type-erased callable wrapper
`function<R(Args...)>` with a one-word storage cell, small-buffer
optimization, and a per-type static dispatch table
(`copy`/`move`/`destroy`/`get`/`invoke`) plus one shared empty table.

Modelling decisions (all read directly off the source):
* The call signature is fixed to `List Nat → Nat` (arguments a list of
  naturals, result a natural); the C++ template is parametric in the
  signature but none of the verified properties depend on it.
* A concrete callable type `T` is a `TypeInfo`: an identity tag plus the
  compile-time facts `fits_small` consults (`sizeof`, `alignof`,
  `is_nothrow_move_constructible`, `is_nothrow_move_assignable`).
  Pointer identity of the per-type static descriptor instances becomes
  equality on `Option TypeInfo` (`none` is the shared empty descriptor).
* A value of a callable type is a `Value`: its type tag plus its call
  behaviour.
* The one-word storage cell is a `Cell`: `uninit` (raw bytes, no live
  object), `live v` (a small object constructed in place), or `ptr a`
  (the cell's bytes are a heap address).  `sizeof(void*)` and
  `alignof(void*)` are taken to be 8, as on the 64-bit targets the
  source's comment (`// 8 bytes, char[8]`) assumes.
* The heap is an association list of allocated blocks plus an
  allocation counter, a deallocation counter and a next-fresh address;
  `delete` of an address that is not allocated is the error `Err.ub`.
* The source's inline `move` lambda performs a move-assignment
  (`reinterpret_cast<T&>(*dst) = std::move(reinterpret_cast<T&>(*src))`)
  into the destination cell.  Its dynamic effect is to store the moved
  value in the destination; when the destination holds no live object of
  the type (as at every call site of `move` in this file: the fresh
  storage of move-construction and the scratch cell of `swap`) the
  assignment runs `T::operator=` on storage where no `T` object lives,
  which C++ object-lifetime rules leave undefined.  The machine records
  that event in the `deadAssign` flag instead of failing, matching what
  compiled code does for the trivially-relocatable closures the tests
  use, while keeping the violation observable.
-/

/-- Compile-time facts about a concrete callable type `T`, with an `id`
distinguishing types that share a layout (two distinct lambda types,
say).  Equality of `TypeInfo` is identity of the C++ type, hence
pointer equality of its static descriptor instance. -/
structure TypeInfo where
  id : Nat
  size : Nat
  align : Nat
  ntMoveCtor : Bool
  ntMoveAssign : Bool
deriving DecidableEq, Repr

/-- A value of a concrete callable type: its type tag and its call
behaviour (what `operator()` returns for each argument list). -/
structure Value where
  ty : TypeInfo
  beh : List Nat → Nat

/-- `fits_small<T>()` from the source: size strictly below the word
size, alignment strictly below the word alignment, nothrow move
assignment and nothrow move construction. -/
def fits_small (T : TypeInfo) : Bool :=
  decide (T.size < 8) && decide (T.align < 8) && T.ntMoveAssign && T.ntMoveCtor

/-- The one-word `storage_t` cell: raw bytes with no live object, a
small object constructed in place, or bytes holding a heap address. -/
inductive Cell where
  | uninit : Cell
  | live : Value → Cell
  | ptr : Nat → Cell

/-- Failure conditions.  `badCall` is the thrown `bad_function_call`;
`ub` is behaviour the C++ abstract machine leaves undefined (reading a
dead cell as a typed object, deleting an unallocated address, ...). -/
inductive Err where
  | badCall : Err
  | ub : Err
deriving DecidableEq, Repr

/-- Lookup in the heap association list. -/
def hfind (a : Nat) : List (Nat × Value) → Option Value
  | [] => none
  | (k, v) :: rest => if a = k then some v else hfind a rest

/-- Remove the block at an address from the heap association list (the
allocator hands out strictly increasing addresses, so at most one block
ever lives at an address). -/
def hremove (a : Nat) : List (Nat × Value) → List (Nat × Value)
  | [] => []
  | (k, v) :: rest => if a = k then rest else (k, v) :: hremove a rest

/-- Replace the value stored at an allocated address (a mutation of the
payload object behind the pointer). -/
def hset (a : Nat) (v : Value) : List (Nat × Value) → List (Nat × Value)
  | [] => []
  | (k, w) :: rest => if a = k then (a, v) :: hset a v rest else (k, w) :: hset a v rest

/-- Machine state: the heap (allocated blocks, next fresh address),
allocation and deallocation counters, and the `deadAssign` flag set
when a move-assignment writes a cell holding no live object. -/
structure MState where
  mem : List (Nat × Value)
  next : Nat
  allocs : Nat
  frees : Nat
  deadAssign : Bool

/-- The initial machine state; addresses start at 1 so that no valid
heap address is the null pointer 0. -/
def st0 : MState := ⟨[], 1, 0, 0, false⟩

/-- `new T(...)`: place the value in a fresh block, return its address. -/
def alloc (st : MState) (v : Value) : Nat × MState :=
  (st.next, ⟨(st.next, v) :: st.mem, st.next + 1, st.allocs + 1, st.frees, st.deadAssign⟩)

/-- `delete p`: release the block at `a`; deleting an address that is
not currently allocated (a double free) is undefined behaviour. -/
def free (st : MState) (a : Nat) : Except Err MState :=
  match hfind a st.mem with
  | some _ => .ok ⟨hremove a st.mem, st.next, st.allocs, st.frees + 1, st.deadAssign⟩
  | none => .error .ub

/-- The `copy` operation of the dispatch table for type `T`
(`get_descriptor<T>` in the source): placement-copy-construct into the
destination cell for small `T`, `new T(*src)` storing the fresh pointer
for boxed `T`.  The destination's prior contents are irrelevant (raw
storage being initialized); the empty descriptor's `copy` is a no-op
that leaves them in place, so the prior contents are a parameter. -/
def descCopy : Option TypeInfo → Cell → Cell → MState → Except Err (Cell × MState)
  | none, _, dstPrior, st => .ok (dstPrior, st)
  | some T, src, _, st =>
    if fits_small T then
      match src with
      | .live v => if v.ty = T then .ok (.live v, st) else .error .ub
      | _ => .error .ub
    else
      match src with
      | .ptr a =>
        match hfind a st.mem with
        | some v =>
          if v.ty = T then
            let (b, st') := alloc st v
            .ok (.ptr b, st')
          else .error .ub
        | none => .error .ub
      | _ => .error .ub

/-- The `move` operation of the dispatch table for type `T`.  For small
`T` the source performs `reinterpret_cast<T&>(*dst) =
std::move(reinterpret_cast<T&>(*src))` followed by destroying the
source object: the moved value ends up in the destination and the
source cell is left dead; when the destination held no live object of
type `T` the assignment itself is to a dead cell and the `deadAssign`
flag records it.  For boxed `T` the source performs `*dst = *src`, a
raw copy of the cell bytes: the destination receives the pointer and
the source cell keeps its (now stale) bytes.  Returns (source cell
after, destination cell after, state). -/
def descMove : Option TypeInfo → Cell → Cell → MState → Except Err (Cell × Cell × MState)
  | none, src, dstPrior, st => .ok (src, dstPrior, st)
  | some T, src, dstPrior, st =>
    if fits_small T then
      match src with
      | .live v =>
        if v.ty = T then
          let dead : Bool :=
            match dstPrior with
            | .live w => !(w.ty = T : Bool)
            | _ => true
          .ok (.uninit, .live v,
            ⟨st.mem, st.next, st.allocs, st.frees, st.deadAssign || dead⟩)
        else .error .ub
      | _ => .error .ub
    else
      match src with
      | .ptr a => .ok (.ptr a, .ptr a, st)
      | _ => .error .ub

/-- The `destroy` operation of the dispatch table for type `T`: run the
destructor in place for small `T` (the cell becomes dead), `delete` the
stored pointer for boxed `T` (the cell keeps its now-dangling bytes). -/
def descDestroy : Option TypeInfo → Cell → MState → Except Err (Cell × MState)
  | none, src, st => .ok (src, st)
  | some T, src, st =>
    if fits_small T then
      match src with
      | .live v => if v.ty = T then .ok (.uninit, st) else .error .ub
      | _ => .error .ub
    else
      match src with
      | .ptr a => (free st a).map fun st' => (.ptr a, st')
      | _ => .error .ub

/-- The `get` operation of the dispatch table: the empty descriptor
returns the null pointer; for small `T` it returns the address of the
storage cell itself (a pure cast, defined whatever the cell holds); for
boxed `T` it reads the pointer bytes out of the cell.  Pointers are
`Option Nat`, `none` being null. -/
def descGet : Option TypeInfo → Nat → Cell → Except Err (Option Nat)
  | none, _, _ => .ok none
  | some T, cellAddr, src =>
    if fits_small T then .ok (some cellAddr)
    else
      match src with
      | .ptr a => .ok (some a)
      | _ => .error .ub

/-- The `invoke` operation of the dispatch table: the empty descriptor
throws `bad_function_call` whatever the arguments; for small `T` it
calls the object living in the cell; for boxed `T` it calls the object
behind the stored pointer. -/
def descInvoke : Option TypeInfo → Cell → List (Nat × Value) → List Nat → Except Err Nat
  | none, _, _, _ => .error .badCall
  | some T, src, mem, args =>
    if fits_small T then
      match src with
      | .live v => if v.ty = T then .ok (v.beh args) else .error .ub
      | _ => .error .ub
    else
      match src with
      | .ptr a =>
        match hfind a mem with
        | some v => if v.ty = T then .ok (v.beh args) else .error .ub
        | none => .error .ub
      | _ => .error .ub

/-- A `function<R(Args...)>` wrapper object: the address its storage
cell lives at (the identity `this` / `&storage` used by the
self-assignment guard and by `get` in the small case), the cell, and
the dispatch-table pointer (`none` is the shared empty table). -/
structure Fn where
  cellAddr : Nat
  storage : Cell
  desc : Option TypeInfo

/-- `function() noexcept`: empty descriptor, storage uninitialized. -/
def mkEmpty (addr : Nat) : Fn := ⟨addr, .uninit, none⟩

/-- `function(T val)`: pick the descriptor for `T` at compile time;
placement-move-construct the value in the cell when `T` fits small,
otherwise `new T(std::move(val))` storing the pointer in the cell. -/
def mkFromVal (addr : Nat) (v : Value) (st : MState) : Fn × MState :=
  if fits_small v.ty then (⟨addr, .live v, some v.ty⟩, st)
  else
    let (a, st') := alloc st v
    (⟨addr, .ptr a, some v.ty⟩, st')

/-- `function(function const& other)`: take `other`'s descriptor and
run its `copy` from `other`'s cell into this fresh (uninitialized)
cell. -/
def copyCtor (addr : Nat) (other : Fn) (st : MState) : Except Err (Fn × MState) :=
  (descCopy other.desc other.storage .uninit st).map fun (c, st') =>
    (⟨addr, c, other.desc⟩, st')

/-- `function(function&& other) noexcept`: take `other`'s descriptor,
run its `move` from `other`'s cell into this fresh cell, then reset
`other`'s descriptor to the shared empty table.  Returns the new
wrapper and `other` as the move leaves it. -/
def moveCtor (addr : Nat) (other : Fn) (st : MState) : Except Err (Fn × Fn × MState) :=
  (descMove other.desc other.storage .uninit st).map fun (src', dst', st') =>
    (⟨addr, dst', other.desc⟩, ⟨other.cellAddr, src', none⟩, st')

/-- `~function()`: run the current descriptor's `destroy` on the cell.
The cell's remaining bytes are dead either way, so only the state is
returned. -/
def dtor (f : Fn) (st : MState) : Except Err MState :=
  (descDestroy f.desc f.storage st).map fun (_, st') => st'

/-- `explicit operator bool() const noexcept`: the descriptor pointer
differs from the shared empty descriptor. -/
def opBool (f : Fn) : Bool := f.desc.isSome

/-- `R operator()(Args... args) const`: forward to the descriptor's
`invoke` on the cell. -/
def call (f : Fn) (st : MState) (args : List Nat) : Except Err Nat :=
  descInvoke f.desc f.storage st.mem args

/-- `target<T>()`: null unless the descriptor pointer is identical to
the static descriptor instance for exactly `T`; otherwise the
descriptor's `get` on the cell. -/
def target (T : TypeInfo) (f : Fn) : Except Err (Option Nat) :=
  if f.desc = some T then descGet f.desc f.cellAddr f.storage
  else .ok none

/-- `function::swap` exactly as written: a single scratch cell `tmp`;
move `other`'s payload into `tmp` with `other`'s table; move this
payload into `other`'s cell with this table; move `tmp` into this cell
with `other`'s table; swap the descriptor pointers.  `this` is the
first argument. -/
def fswap (f other : Fn) (st : MState) : Except Err (Fn × Fn × MState) := do
  let (osrc, tmp, st1) ← descMove other.desc other.storage .uninit st
  let (fsrc, ocell, st2) ← descMove f.desc f.storage osrc st1
  let (_, fcell, st3) ← descMove other.desc tmp fsrc st2
  .ok (⟨f.cellAddr, fcell, other.desc⟩, ⟨other.cellAddr, ocell, f.desc⟩, st3)

/-- `operator=(function const& rhs)`: guard on object identity
(`this != &rhs`), then copy-and-swap — build `function(rhs)` at a
temporary location, swap it with `*this`, destroy the temporary. -/
def assignCopy (f rhs : Fn) (tmpAddr : Nat) (st : MState) : Except Err (Fn × MState) :=
  if f.cellAddr = rhs.cellAddr then .ok (f, st)
  else do
    let (tmp, st1) ← copyCtor tmpAddr rhs st
    let (tmp2, f2, st2) ← fswap tmp f st1
    let st3 ← dtor tmp2 st2
    .ok (f2, st3)

/-- `operator=(function&& rhs) noexcept`: guard on object identity,
then `swap(rhs); function().swap(rhs);` — the default-constructed
temporary swaps `rhs` back to empty and is destroyed holding `rhs`'s
post-swap payload.  Returns `*this` and `rhs` as left by the
assignment. -/
def assignMove (f rhs : Fn) (tmpAddr : Nat) (st : MState) :
    Except Err (Fn × Fn × MState) :=
  if f.cellAddr = rhs.cellAddr then .ok (f, rhs, st)
  else do
    let (f2, rhs2, st1) ← fswap f rhs st
    let (tmp2, rhs3, st2) ← fswap (mkEmpty tmpAddr) rhs2 st1
    let st3 ← dtor tmp2 st2
    .ok (f2, rhs3, st3)

/-- The wrapper invariant the public operations maintain: the
descriptor pointer accurately describes the cell — empty descriptor
with anything in the cell (never read); small `T` with a live object of
type `T` constructed in the cell; boxed `T` with the cell holding an
address allocated in the heap (and below the fresh-address watermark)
whose block is a value of type `T`. -/
def WF (st : MState) (f : Fn) : Prop :=
  match f.desc with
  | none => True
  | some T =>
    if fits_small T then ∃ v, f.storage = Cell.live v ∧ v.ty = T
    else ∃ a v, f.storage = Cell.ptr a ∧ hfind a st.mem = some v ∧ v.ty = T ∧ a < st.next

/-! ### Concrete fixtures used by the witness theorems -/

/-- A zero-capture closure type of size 1: fits small. -/
def tySmall : TypeInfo := ⟨0, 1, 1, true, true⟩

/-- A three-int capture, larger than one word: stored boxed. -/
def tyBig : TypeInfo := ⟨1, 24, 8, true, true⟩

/-- A small object returning 42 for every argument list. -/
def vRet42 : Value := ⟨tySmall, fun _ => 42⟩

/-- A boxed object adding its captured sum 6 to the arguments. -/
def vAddSum : Value := ⟨tyBig, fun args => 6 + args.sum⟩

/-- A wrapper at address 10 bound inline to `vRet42` (no heap change). -/
def fSmall : Fn := (mkFromVal 10 vRet42 st0).1

/-- A wrapper at address 11 bound boxed to `vAddSum`, together with the
state after the construction (one block allocated at address 1). -/
def fBigP : Fn × MState := mkFromVal 11 vAddSum st0

/-- One step of `fits_small`, spelled out. -/
theorem fits_small_iff (T : TypeInfo) :
    fits_small T = true ↔
      (T.size < 8 ∧ T.align < 8 ∧ T.ntMoveCtor = true ∧ T.ntMoveAssign = true) := by
  simp [fits_small, Bool.and_eq_true, decide_eq_true_iff]
  tauto

/-! ### Claim theorems -/

/-- C1: invoking a wrapper in the empty state — default-constructed, or
emptied by a move — raises the thrown `bad_function_call` failure for
every argument list, never a silent no-op or a null result, because the
empty dispatch table's `invoke` raises it regardless of arguments. -/
theorem invoke_empty_raises_bad_call (addr tmpAddr : Nat) (st st' : MState)
    (args : List Nat) (c : Cell) (mem : List (Nat × Value)) (f g src : Fn)
    (hmv : moveCtor tmpAddr f st = .ok (g, src, st')) :
    descInvoke none c mem args = .error .badCall ∧
    call (mkEmpty addr) st args = .error .badCall ∧
    call src st' args = .error .badCall := by
  refine ⟨rfl, rfl, ?_⟩
  unfold moveCtor at hmv
  cases hdm : descMove f.desc f.storage Cell.uninit st with
  | error e => rw [hdm] at hmv; simp [Except.map] at hmv
  | ok r =>
    obtain ⟨s, d, stm⟩ := r
    rw [hdm] at hmv
    simp only [Except.map, Except.ok.injEq, Prod.mk.injEq] at hmv
    obtain ⟨-, h2, -⟩ := hmv
    rw [← h2]
    rfl

/-- Witness for C1 at concrete input: move-construct from the wrapper
bound to the 42-returning small callable, then invoke the source. -/
theorem invoke_empty_raises_bad_call_w :
    (moveCtor 3 fSmall st0 =
      .ok (⟨3, .live vRet42, some tySmall⟩, ⟨10, .uninit, none⟩,
        ⟨[], 1, 0, 0, true⟩)) ∧
    call ⟨10, .uninit, none⟩ ⟨[], 1, 0, 0, true⟩ [5] = .error .badCall := by
  refine ⟨rfl, ?_⟩
  exact (invoke_empty_raises_bad_call 0 3 st0 ⟨[], 1, 0, 0, true⟩ [5] .uninit []
    fSmall ⟨3, .live vRet42, some tySmall⟩ ⟨10, .uninit, none⟩ rfl).2.2

/-- C3: a constructed wrapper stores the callable inline exactly when
its type's size is strictly below the pointer size, its alignment
strictly below the pointer alignment, and it is nothrow
move-constructible and nothrow move-assignable; a type failing any of
the four is stored as a heap pointer in the cell; and the descriptor —
hence the mode — is chosen from the type alone, never read back from
the cell's contents. -/
theorem inline_iff_fits_small (v : Value) (addr : Nat) (st : MState) :
    ((∃ w, ((mkFromVal addr v st).1).storage = Cell.live w) ↔
      (v.ty.size < 8 ∧ v.ty.align < 8 ∧
        v.ty.ntMoveCtor = true ∧ v.ty.ntMoveAssign = true)) ∧
    ((∃ a, ((mkFromVal addr v st).1).storage = Cell.ptr a) ↔
      ¬(v.ty.size < 8 ∧ v.ty.align < 8 ∧
        v.ty.ntMoveCtor = true ∧ v.ty.ntMoveAssign = true)) ∧
    ((mkFromVal addr v st).1).desc = some v.ty := by
  rw [← fits_small_iff]
  cases hf : fits_small v.ty with
  | true => simp [mkFromVal, hf]
  | false => simp [mkFromVal, hf, alloc]

/-- C7: self copy-assignment and self move-assignment are stopped by
the `this != &rhs` identity guard and leave the wrapper and the machine
state exactly as they were — the payload is neither destroyed twice nor
lost, and every later invocation behaves as before. -/
theorem self_assignment_noop (f : Fn) (st : MState) (tmpAddr : Nat) :
    assignCopy f f tmpAddr st = .ok (f, st) ∧
    assignMove f f tmpAddr st = .ok (f, f, st) := by
  constructor <;> simp [assignCopy, assignMove]

/-- Helper: whatever move-construction moved from, it left the source
wrapper with the shared empty descriptor and its own cell address. -/
theorem moveCtor_src_empty (tmpAddr : Nat) (g h src : Fn) (st st' : MState)
    (hmv : moveCtor tmpAddr g st = .ok (h, src, st')) :
    src.desc = none ∧ src.cellAddr = g.cellAddr := by
  unfold moveCtor at hmv
  cases hdm : descMove g.desc g.storage Cell.uninit st with
  | error e => rw [hdm] at hmv; simp [Except.map] at hmv
  | ok r =>
    obtain ⟨s, d, stm⟩ := r
    rw [hdm] at hmv
    simp only [Except.map, Except.ok.injEq, Prod.mk.injEq] at hmv
    obtain ⟨-, h2, -⟩ := hmv
    rw [← h2]
    exact ⟨rfl, rfl⟩

/-- C4: move-construction from a bound wrapper succeeds, the new
wrapper invokes with the same results the source did, and the source is
left empty: its boolean conversion is false, invoking it raises
bad-call, and destroying it is a safe no-op. -/
theorem move_ctor_transfers_and_empties (f : Fn) (st : MState) (addr : Nat)
    (hwf : WF st f) (hb : f.desc ≠ none) :
    ∃ g src st', moveCtor addr f st = .ok (g, src, st') ∧
      (∀ args, call g st' args = call f st args) ∧
      opBool src = false ∧
      (∀ args, call src st' args = .error .badCall) ∧
      dtor src st' = .ok st' := by
  obtain ⟨ca, cell, desc⟩ := f
  cases desc with
  | none => exact absurd rfl hb
  | some T =>
    unfold WF at hwf
    simp only at hwf
    by_cases hf : fits_small T = true
    · rw [if_pos hf] at hwf
      obtain ⟨v, rfl, rfl⟩ := hwf
      refine ⟨⟨addr, .live v, some v.ty⟩, ⟨ca, .uninit, none⟩,
        ⟨st.mem, st.next, st.allocs, st.frees, st.deadAssign || true⟩, ?_, ?_, rfl, ?_, rfl⟩
      · simp [moveCtor, descMove, hf, Except.map]
      · intro args
        simp [call, descInvoke, hf]
      · intro args
        rfl
    · rw [if_neg hf] at hwf
      obtain ⟨a, v, rfl, hfd, hty, hlt⟩ := hwf
      rw [Bool.not_eq_true] at hf
      refine ⟨⟨addr, .ptr a, some T⟩, ⟨ca, .ptr a, none⟩, st, ?_, ?_, rfl, ?_, rfl⟩
      · simp [moveCtor, descMove, hf, Except.map]
      · intro args
        simp [call, descInvoke, hf]
      · intro args
        rfl

/-- Witness for C4: move-construct from the inline wrapper bound to the
42-returning callable. -/
theorem move_ctor_transfers_and_empties_w :
    WF st0 fSmall ∧ fSmall.desc ≠ none ∧
    ∃ g src st', moveCtor 3 fSmall st0 = .ok (g, src, st') ∧
      (∀ args, call g st' args = call fSmall st0 args) ∧
      opBool src = false ∧
      (∀ args, call src st' args = .error .badCall) ∧
      dtor src st' = .ok st' := by
  have hwf : WF st0 fSmall := ⟨vRet42, rfl, rfl⟩
  have hb : fSmall.desc ≠ none := by decide
  exact ⟨hwf, hb, move_ctor_transfers_and_empties fSmall st0 3 hwf hb⟩

/-- C5: `target<T>()` yields a non-null pointer exactly when the
wrapper's dispatch pointer is identical to the static descriptor for
`T`; on a freshly bound wrapper the pointer is the cell's own address
in the inline case and the boxed allocation's address otherwise, and
`target<U>()` for any other type `U` is null — exact-type matching. -/
theorem target_exact_type_match (T U : TypeInfo) (f : Fn) (st : MState)
    (v : Value) (addr : Nat) (hwf : WF st f) (hUT : U ≠ v.ty) :
    (f.desc = some T → ∃ p, target T f = .ok (some p)) ∧
    (f.desc ≠ some T → target T f = .ok none) ∧
    target v.ty ((mkFromVal addr v st).1) =
      .ok (some (if fits_small v.ty then addr else st.next)) ∧
    target U ((mkFromVal addr v st).1) = .ok none := by
  refine ⟨?_, ?_, ?_, ?_⟩
  · intro hd
    unfold WF at hwf
    rw [hd] at hwf
    simp only at hwf
    by_cases hf : fits_small T = true
    · exact ⟨f.cellAddr, by simp [target, hd, descGet, hf]⟩
    · rw [if_neg hf] at hwf
      obtain ⟨a, w, hcell, -, -, -⟩ := hwf
      rw [Bool.not_eq_true] at hf
      exact ⟨a, by simp [target, hd, descGet, hf, hcell]⟩
  · intro hd
    simp [target, hd]
  · cases hf : fits_small v.ty with
    | true => simp [mkFromVal, hf, target, descGet]
    | false => simp [mkFromVal, hf, alloc, target, descGet]
  · cases hf : fits_small v.ty with
    | true => simp [mkFromVal, hf, target, Option.some_inj, Ne.symm hUT]
    | false => simp [mkFromVal, hf, alloc, target, Option.some_inj, Ne.symm hUT]

/-- Witness for C5: the boxed wrapper bound to the sum-capturing
callable; `target` with its own type yields the allocation's address,
with the small type it yields null. -/
theorem target_exact_type_match_w :
    WF (mkFromVal 11 vAddSum st0).2 (mkFromVal 11 vAddSum st0).1 ∧
    tySmall ≠ vAddSum.ty ∧
    (((mkFromVal 11 vAddSum st0).1).desc = some tyBig →
      ∃ p, target tyBig ((mkFromVal 11 vAddSum st0).1) = .ok (some p)) ∧
    target vAddSum.ty ((mkFromVal 11 vAddSum (mkFromVal 11 vAddSum st0).2).1) =
      .ok (some (if fits_small vAddSum.ty then 11
        else ((mkFromVal 11 vAddSum st0).2).next)) ∧
    target tySmall ((mkFromVal 11 vAddSum (mkFromVal 11 vAddSum st0).2).1) =
      .ok none := by
  have hwf : WF (mkFromVal 11 vAddSum st0).2 (mkFromVal 11 vAddSum st0).1 :=
    ⟨1, vAddSum, rfl, rfl, rfl, by decide⟩
  have hne : tySmall ≠ vAddSum.ty := by decide
  have h := target_exact_type_match tyBig tySmall (mkFromVal 11 vAddSum st0).1
    (mkFromVal 11 vAddSum st0).2 vAddSum 11 hwf hne
  exact ⟨hwf, hne, h.1, h.2.2.1, h.2.2.2⟩

/-- C10: `target<T>()` on an empty wrapper (default-constructed or
moved-from) is null for every `T`, because the empty descriptor's
address differs from every concrete type's descriptor address; the
empty table's `get` operation itself returns the null pointer. -/
theorem target_empty_is_null (T : TypeInfo) (f g h src : Fn) (st st' : MState)
    (addr tmpAddr : Nat) (c : Cell)
    (hempty : f.desc = none)
    (hmv : moveCtor tmpAddr g st = .ok (h, src, st')) :
    target T f = .ok none ∧
    target T (mkEmpty addr) = .ok none ∧
    descGet none addr c = .ok none ∧
    (none : Option TypeInfo) ≠ some T ∧
    target T src = .ok none := by
  have hs := (moveCtor_src_empty tmpAddr g h src st st' hmv).1
  exact ⟨by simp [target, hempty], by simp [target, mkEmpty], rfl,
    by simp, by simp [target, hs]⟩

/-- Witness for C10: the default-constructed wrapper and the source of
a move from the inline 42-returning wrapper both yield a null
`target<tySmall>`. -/
theorem target_empty_is_null_w :
    (mkEmpty 7).desc = none ∧
    (moveCtor 3 fSmall st0 =
      .ok (⟨3, .live vRet42, some tySmall⟩, ⟨10, .uninit, none⟩,
        ⟨[], 1, 0, 0, true⟩)) ∧
    target tySmall (mkEmpty 7) = .ok none ∧
    target tySmall (⟨10, .uninit, none⟩ : Fn) = .ok none := by
  have h := target_empty_is_null tySmall (mkEmpty 7) fSmall
    ⟨3, .live vRet42, some tySmall⟩ ⟨10, .uninit, none⟩ st0
    ⟨[], 1, 0, 0, true⟩ 7 3 .uninit rfl rfl
  exact ⟨rfl, rfl, h.1, h.2.2.2.2⟩

/-- Helper: bind of a successful `Except` computation. -/
theorem except_bind_ok {α β : Type} (a : α) (k : α → Except Err β) :
    (Except.ok a >>= k) = k a := rfl

/-- Helper: the `move` operation of a small type's descriptor on a live
source object. -/
theorem descMove_small (T : TypeInfo) (v : Value) (d : Cell) (st : MState)
    (hf : fits_small T = true) (hv : v.ty = T) :
    descMove (some T) (.live v) d st =
      .ok (.uninit, .live v,
        ⟨st.mem, st.next, st.allocs, st.frees,
          st.deadAssign ||
            (match d with | .live w => !(w.ty = T : Bool) | _ => true)⟩) := by
  subst hv
  simp [descMove, hf]

/-- Helper: the `move` operation of a boxed type's descriptor copies
the pointer bytes and leaves the source cell untouched. -/
theorem descMove_boxed (T : TypeInfo) (a : Nat) (d : Cell) (st : MState)
    (hf : fits_small T = false) :
    descMove (some T) (.ptr a) d st = .ok (.ptr a, .ptr a, st) := by
  simp [descMove, hf]

/-- Helper: the empty descriptor's `move` is a no-op on both cells. -/
theorem descMove_empty (src d : Cell) (st : MState) :
    descMove none src d st = .ok (src, d, st) := rfl

/-- C2: `swap` — the documented three-move sequence through one shared
temporary cell followed by the exchange of the dispatch pointers —
succeeds for every combination of held states (inline/inline,
boxed/boxed, inline/boxed, empty/bound) and leaves each wrapper
invoking exactly what the other invoked before, touching no heap block
and performing no allocation or deallocation. -/
theorem swap_exchanges_payloads (f g : Fn) (st : MState)
    (hwf : WF st f) (hwg : WF st g) :
    ∃ f2 g2 st2, fswap f g st = .ok (f2, g2, st2) ∧
      (∀ args, call f2 st2 args = call g st args) ∧
      (∀ args, call g2 st2 args = call f st args) ∧
      st2.mem = st.mem ∧ st2.allocs = st.allocs ∧ st2.frees = st.frees := by
  obtain ⟨fa, fc, fd⟩ := f
  obtain ⟨ga, gc, gd⟩ := g
  cases fd with
  | none =>
    cases gd with
    | none =>
      exact ⟨⟨fa, fc, none⟩, ⟨ga, gc, none⟩, st, rfl,
        fun args => rfl, fun args => rfl, rfl, rfl, rfl⟩
    | some U =>
      simp only [WF] at hwg
      by_cases hgU : fits_small U = true
      · rw [if_pos hgU] at hwg
        obtain ⟨w, rfl, rfl⟩ := hwg
        refine ⟨⟨fa, .live w, some w.ty⟩, ⟨ga, .uninit, none⟩,
          ⟨st.mem, st.next, st.allocs, st.frees, true⟩, ?_, ?_, ?_, rfl, rfl, rfl⟩
        · simp [fswap, descMove_small _ _ _ _ hgU rfl, descMove_empty, except_bind_ok]
        · intro args
          simp [call, descInvoke, hgU]
        · intro args
          rfl
      · rw [if_neg hgU] at hwg
        rw [Bool.not_eq_true] at hgU
        obtain ⟨a, w, rfl, hfd, rfl, hlt⟩ := hwg
        refine ⟨⟨fa, .ptr a, some w.ty⟩, ⟨ga, .ptr a, none⟩, _, ?_, ?_, ?_, rfl, rfl, rfl⟩
        · simp [fswap, descMove_boxed _ _ _ _ hgU, descMove_empty, except_bind_ok]
        · intro args
          simp [call, descInvoke, hgU]
        · intro args
          rfl
  | some T =>
    simp only [WF] at hwf
    by_cases hfT : fits_small T = true
    · rw [if_pos hfT] at hwf
      obtain ⟨v, rfl, rfl⟩ := hwf
      cases gd with
      | none =>
        clear hwg
        refine ⟨⟨fa, .uninit, none⟩, ⟨ga, .live v, some v.ty⟩,
          ⟨st.mem, st.next, st.allocs, st.frees,
            st.deadAssign ||
              (match gc with | Cell.live w => !(decide (w.ty = v.ty)) | _ => true)⟩,
          ?_, ?_, ?_, rfl, rfl, rfl⟩
        · simp [fswap, descMove_small _ _ _ _ hfT rfl, descMove_empty, except_bind_ok]
        · intro args
          rfl
        · intro args
          simp [call, descInvoke, hfT]
      | some U =>
        simp only [WF] at hwg
        by_cases hgU : fits_small U = true
        · rw [if_pos hgU] at hwg
          obtain ⟨w, rfl, rfl⟩ := hwg
          refine ⟨⟨fa, .live w, some w.ty⟩, ⟨ga, .live v, some v.ty⟩,
            ⟨st.mem, st.next, st.allocs, st.frees, true⟩, ?_, ?_, ?_, rfl, rfl, rfl⟩
          · simp [fswap, descMove_small _ _ _ _ hfT rfl,
              descMove_small _ _ _ _ hgU rfl, except_bind_ok]
          · intro args
            simp [call, descInvoke, hgU]
          · intro args
            simp [call, descInvoke, hfT]
        · rw [if_neg hgU] at hwg
          rw [Bool.not_eq_true] at hgU
          obtain ⟨a, w, rfl, hfd, rfl, hlt⟩ := hwg
          refine ⟨⟨fa, .ptr a, some w.ty⟩, ⟨ga, .live v, some v.ty⟩,
            ⟨st.mem, st.next, st.allocs, st.frees, true⟩, ?_, ?_, ?_, rfl, rfl, rfl⟩
          · simp [fswap, descMove_small _ _ _ _ hfT rfl,
              descMove_boxed _ _ _ _ hgU, except_bind_ok]
          · intro args
            simp [call, descInvoke, hgU]
          · intro args
            simp [call, descInvoke, hfT]
    · rw [if_neg hfT] at hwf
      rw [Bool.not_eq_true] at hfT
      obtain ⟨a, v, rfl, hfd, rfl, hlt⟩ := hwf
      cases gd with
      | none =>
        refine ⟨⟨fa, .ptr a, none⟩, ⟨ga, .ptr a, some v.ty⟩, _, ?_, ?_, ?_, rfl, rfl, rfl⟩
        · simp [fswap, descMove_boxed _ _ _ _ hfT, descMove_empty, except_bind_ok]
        · intro args
          rfl
        · intro args
          simp [call, descInvoke, hfT]
      | some U =>
        simp only [WF] at hwg
        by_cases hgU : fits_small U = true
        · rw [if_pos hgU] at hwg
          obtain ⟨w, rfl, rfl⟩ := hwg
          refine ⟨⟨fa, .live w, some w.ty⟩, ⟨ga, .ptr a, some v.ty⟩,
            ⟨st.mem, st.next, st.allocs, st.frees, true⟩, ?_, ?_, ?_, rfl, rfl, rfl⟩
          · simp [fswap, descMove_small _ _ _ _ hgU rfl,
              descMove_boxed _ _ _ _ hfT, except_bind_ok]
          · intro args
            simp [call, descInvoke, hgU]
          · intro args
            simp [call, descInvoke, hfT]
        · rw [if_neg hgU] at hwg
          rw [Bool.not_eq_true] at hgU
          obtain ⟨b, w, rfl, hgd, rfl, hlt2⟩ := hwg
          refine ⟨⟨fa, .ptr b, some w.ty⟩, ⟨ga, .ptr a, some v.ty⟩, _, ?_, ?_, ?_, rfl, rfl, rfl⟩
          · simp [fswap, descMove_boxed _ _ _ _ hfT,
              descMove_boxed _ _ _ _ hgU, except_bind_ok]
          · intro args
            simp [call, descInvoke, hgU]
          · intro args
            simp [call, descInvoke, hfT]

/-- Witness for C2: swap the inline 42-returning wrapper with the boxed
sum-capturing wrapper in the state holding the latter's allocation. -/
theorem swap_exchanges_payloads_w :
    WF fBigP.2 fSmall ∧ WF fBigP.2 fBigP.1 ∧
    ∃ f2 g2 st2, fswap fSmall fBigP.1 fBigP.2 = .ok (f2, g2, st2) ∧
      (∀ args, call f2 st2 args = call fBigP.1 fBigP.2 args) ∧
      (∀ args, call g2 st2 args = call fSmall fBigP.2 args) ∧
      st2.mem = fBigP.2.mem ∧ st2.allocs = fBigP.2.allocs ∧
      st2.frees = fBigP.2.frees := by
  have h1 : WF fBigP.2 fSmall := ⟨vRet42, rfl, rfl⟩
  have h2 : WF fBigP.2 fBigP.1 := ⟨1, vAddSum, rfl, rfl, rfl, by decide⟩
  exact ⟨h1, h2, swap_exchanges_payloads fSmall fBigP.1 fBigP.2 h1 h2⟩

/-- Mutate the payload object stored behind a heap pointer (what a
mutable callable does to its captured state when invoked through one
wrapper). -/
def mutate (st : MState) (a : Nat) (v : Value) : MState :=
  ⟨hset a v st.mem, st.next, st.allocs, st.frees, st.deadAssign⟩

/-- Helper: looking up one address is blind to a mutation at another. -/
theorem hfind_hset_ne (a b : Nat) (v : Value) (m : List (Nat × Value))
    (h : b ≠ a) : hfind b (hset a v m) = hfind b m := by
  induction m with
  | nil => rfl
  | cons p rest ih =>
    obtain ⟨k, w⟩ := p
    by_cases hk : a = k
    · subst hk
      simp only [hset, if_pos rfl, hfind, if_neg h]
      exact ih
    · simp only [hset, if_neg hk, hfind]
      by_cases hbk : b = k
      · rw [if_pos hbk, if_pos hbk]
      · rw [if_neg hbk, if_neg hbk]
        exact ih

/-- Helper: removing an allocated block shortens the heap by one. -/
theorem hremove_length (a : Nat) (m : List (Nat × Value)) (w : Value)
    (h : hfind a m = some w) : (hremove a m).length + 1 = m.length := by
  induction m with
  | nil => exact Option.noConfusion h
  | cons p rest ih =>
    obtain ⟨k, u⟩ := p
    by_cases hk : a = k
    · simp [hremove, hk]
    · simp only [hfind, if_neg hk] at h
      simp only [hremove, if_neg hk, List.length_cons]
      rw [← ih h]

/-- C9: copy-construction from a bound wrapper yields a second wrapper
that owns its own equivalent payload: both invoke with the same
results, the original is untouched, and in the boxed case the two heap
blocks are distinct, so mutating the payload behind one wrapper's
pointer never changes what the other returns. -/
theorem copy_ctor_deep_independent (f : Fn) (st : MState) (addr : Nat)
    (hwf : WF st f) (hb : f.desc ≠ none) :
    ∃ g st', copyCtor addr f st = .ok (g, st') ∧
      (∀ args, call g st' args = call f st args) ∧
      (∀ args, call f st' args = call f st args) ∧
      (∀ a b, f.storage = Cell.ptr a → g.storage = Cell.ptr b →
        a ≠ b ∧
        (∀ v2 args, call g (mutate st' a v2) args = call g st' args) ∧
        (∀ v2 args, call f (mutate st' b v2) args = call f st' args)) := by
  obtain ⟨ca, cell, desc⟩ := f
  cases desc with
  | none => exact absurd rfl hb
  | some T =>
    simp only [WF] at hwf
    by_cases hf : fits_small T = true
    · rw [if_pos hf] at hwf
      obtain ⟨v, rfl, rfl⟩ := hwf
      refine ⟨⟨addr, .live v, some v.ty⟩, st, ?_, ?_, ?_, ?_⟩
      · simp [copyCtor, descCopy, hf, Except.map]
      · intro args
        simp [call, descInvoke, hf]
      · intro args
        rfl
      · intro a b hfa hfb
        exact Cell.noConfusion hfa
    · rw [if_neg hf] at hwf
      rw [Bool.not_eq_true] at hf
      obtain ⟨a, v, rfl, hfd, rfl, hlt⟩ := hwf
      have hane : a ≠ st.next := Nat.ne_of_lt hlt
      refine ⟨⟨addr, .ptr st.next, some v.ty⟩,
        ⟨(st.next, v) :: st.mem, st.next + 1, st.allocs + 1, st.frees, st.deadAssign⟩,
        ?_, ?_, ?_, ?_⟩
      · simp [copyCtor, descCopy, hf, hfd, alloc, Except.map]
      · intro args
        simp [call, descInvoke, hf, hfind, hfd]
      · intro args
        simp [call, descInvoke, hf, hfind, if_neg hane, hfd]
      · intro a2 b2 hfa hfb
        have ha2 : a2 = a := (Cell.ptr.injEq _ _).mp hfa.symm
        have hb2 : b2 = st.next := (Cell.ptr.injEq _ _).mp hfb.symm
        rw [ha2, hb2]
        refine ⟨hane, ?_, ?_⟩
        · intro v2 args
          simp [call, descInvoke, hf, mutate]
          rw [hfind_hset_ne a st.next v2 _ (Ne.symm hane)]
        · intro v2 args
          simp [call, descInvoke, hf, mutate]
          rw [hfind_hset_ne st.next a v2 _ hane]

/-- Witness for C9: copy the boxed sum-capturing wrapper. -/
theorem copy_ctor_deep_independent_w :
    WF fBigP.2 fBigP.1 ∧ fBigP.1.desc ≠ none ∧
    ∃ g st', copyCtor 12 fBigP.1 fBigP.2 = .ok (g, st') ∧
      (∀ args, call g st' args = call fBigP.1 fBigP.2 args) ∧
      (∀ args, call fBigP.1 st' args = call fBigP.1 fBigP.2 args) ∧
      (∀ a b, fBigP.1.storage = Cell.ptr a → g.storage = Cell.ptr b →
        a ≠ b ∧
        (∀ v2 args, call g (mutate st' a v2) args = call g st' args) ∧
        (∀ v2 args, call fBigP.1 (mutate st' b v2) args = call fBigP.1 st' args)) := by
  have hwf : WF fBigP.2 fBigP.1 := ⟨1, vAddSum, rfl, rfl, rfl, by decide⟩
  have hb : fBigP.1.desc ≠ none := by decide
  exact ⟨hwf, hb, copy_ctor_deep_independent fBigP.1 fBigP.2 12 hwf hb⟩

/-- C8: boxed storage accounting — construction from a non-small
callable performs exactly one allocation and no deallocation;
destroying a boxed-bound wrapper deallocates exactly once;
move-construction transfers the existing pointer with neither
allocation nor deallocation; copy duplicates via exactly one new
allocation — and each of these operations preserves the balance
`live blocks + frees = allocs`, so a sequence of them can neither leak
nor double-free. -/
theorem boxed_alloc_free_balance (v : Value) (f : Fn) (T : TypeInfo)
    (st : MState) (addr tmpAddr : Nat)
    (hnf : fits_small v.ty = false)
    (hwf : WF st f) (hfd : f.desc = some T) (hT : fits_small T = false)
    (hinv : st.mem.length + st.frees = st.allocs) :
    ((mkFromVal addr v st).2.allocs = st.allocs + 1 ∧
      (mkFromVal addr v st).2.frees = st.frees ∧
      (mkFromVal addr v st).2.mem.length + (mkFromVal addr v st).2.frees =
        (mkFromVal addr v st).2.allocs) ∧
    (∃ st2, dtor f st = .ok st2 ∧ st2.frees = st.frees + 1 ∧
      st2.allocs = st.allocs ∧ st2.mem.length + st2.frees = st2.allocs) ∧
    (∃ g src st2, moveCtor tmpAddr f st = .ok (g, src, st2) ∧
      g.storage = f.storage ∧ st2.allocs = st.allocs ∧ st2.frees = st.frees ∧
      st2.mem = st.mem) ∧
    (∃ g st2, copyCtor tmpAddr f st = .ok (g, st2) ∧
      st2.allocs = st.allocs + 1 ∧ st2.frees = st.frees ∧
      st2.mem.length + st2.frees = st2.allocs) := by
  obtain ⟨ca, cell, desc⟩ := f
  simp only at hfd
  subst hfd
  simp only [WF, hT] at hwf
  rw [if_neg (by simp)] at hwf
  obtain ⟨a, w, rfl, hfa, rfl, hlt⟩ := hwf
  refine ⟨⟨?_, ?_, ?_⟩, ?_, ?_, ?_⟩
  · simp [mkFromVal, hnf, alloc]
  · simp [mkFromVal, hnf, alloc]
  · simp only [mkFromVal, hnf, Bool.false_eq_true, if_false, alloc, List.length_cons]
    omega
  · refine ⟨⟨hremove a st.mem, st.next, st.allocs, st.frees + 1, st.deadAssign⟩, ?_, rfl, rfl, ?_⟩
    · simp [dtor, descDestroy, hT, free, hfa, Except.map]
    · simp only []
      have := hremove_length a st.mem w hfa
      omega
  · exact ⟨⟨tmpAddr, .ptr a, some w.ty⟩, ⟨ca, .ptr a, none⟩, st,
      by simp [moveCtor, descMove_boxed _ _ _ _ hT, Except.map], rfl, rfl, rfl, rfl⟩
  · refine ⟨⟨tmpAddr, .ptr st.next, some w.ty⟩,
      ⟨(st.next, w) :: st.mem, st.next + 1, st.allocs + 1, st.frees, st.deadAssign⟩,
      ?_, rfl, rfl, ?_⟩
    · simp [copyCtor, descCopy, hT, hfa, alloc, Except.map]
    · simp only [List.length_cons]
      omega

/-- Witness for C8: the boxed sum-capturing wrapper in the state its
construction produced (one live block, one allocation, no frees). -/
theorem boxed_alloc_free_balance_w :
    fits_small vAddSum.ty = false ∧ WF fBigP.2 fBigP.1 ∧
    fBigP.1.desc = some tyBig ∧ fits_small tyBig = false ∧
    fBigP.2.mem.length + fBigP.2.frees = fBigP.2.allocs ∧
    (∃ st2, dtor fBigP.1 fBigP.2 = .ok st2 ∧ st2.frees = fBigP.2.frees + 1 ∧
      st2.allocs = fBigP.2.allocs ∧ st2.mem.length + st2.frees = st2.allocs) := by
  have hwf : WF fBigP.2 fBigP.1 := ⟨1, vAddSum, rfl, rfl, rfl, by decide⟩
  refine ⟨rfl, hwf, rfl, rfl, rfl, ?_⟩
  exact (boxed_alloc_free_balance vAddSum fBigP.1 tyBig fBigP.2 20 21
    rfl hwf rfl rfl rfl).2.1

/-- C6 evidence: the dispatch table's move operation for an
inline-stored type performs a move-assignment into the destination
cell; on the uninitialized destinations the program feeds it (the
fresh storage of move-construction, `swap`'s scratch cell) that
assignment targets a cell holding no live object, which the machine
records in the `deadAssign` flag — whereas the copy operation, which
does placement-construct, leaves the flag clear on the same raw cell. -/
theorem move_op_assigns_into_dead_cell :
    (descMove (some tySmall) (.live vRet42) Cell.uninit st0).map
        (fun r => r.2.2.deadAssign) = .ok true ∧
    (descCopy (some tySmall) (.live vRet42) Cell.uninit st0).map
        (fun r => r.2.deadAssign) = .ok false ∧
    (moveCtor 3 fSmall st0).map (fun r => r.2.2.deadAssign) = .ok true := by
  exact ⟨rfl, rfl, rfl⟩
